import Mathlib

/-!
Verification of the flask-chat-app conversation/message engine.

The definitions below are a shallow embedding of the Python source:
`db_management.py` (class `ChatDatabase`) and `app.py` (Flask routes and
Socket.IO handlers).  SQLite tables are lists of rows in insertion order;
`AUTOINCREMENT` columns are modelled with explicit next-id counters.
-/

namespace FlaskChat

/-- A row of `user_table` (db_management.py, `createTables`). -/
structure UserRow where
  id : Nat
  username : String
  password : String
  timezone : String
  created_at : Nat
deriving DecidableEq, Repr

/-- A row of `conversations` (db_management.py, `createTables`). -/
structure ConversationRow where
  id : Nat
  name : Option String
  is_group_chat : Bool
  created_at : Nat
  last_message_at : Option Nat
deriving DecidableEq, Repr

/-- A row of `conversation_participants` (db_management.py, `createTables`). -/
structure ParticipantRow where
  conversation_id : Nat
  user_id : Nat
  joined_at : Nat
deriving DecidableEq, Repr

/-- A row of `messages` (db_management.py, `createTables`). -/
structure MessageRow where
  id : Nat
  conversation_id : Nat
  sender_id : Nat
  message : String
  timestamp : Nat
deriving DecidableEq, Repr

/-- The SQLite database of `ChatDatabase`: the four tables in insertion
order plus the `AUTOINCREMENT` counters for `conversations.id` and
`messages.id`. -/
structure ChatDatabase where
  users : List UserRow
  conversations : List ConversationRow
  participants : List ParticipantRow
  messages : List MessageRow
  nextConvId : Nat
  nextMsgId : Nat
deriving DecidableEq, Repr

/-- Well-formedness of a database state: the schema constraints that SQLite
enforces (primary keys, uniqueness, foreign keys) plus freshness of the
`AUTOINCREMENT` counters and positivity of row ids (SQLite ids start at 1,
which the Python code relies on through truthiness checks such as
`if not user_id`). -/
def Wf (db : ChatDatabase) : Prop :=
  (db.users.map (fun u => u.id)).Nodup ∧
  (db.users.map (fun u => u.username)).Nodup ∧
  (∀ u ∈ db.users, 1 ≤ u.id) ∧
  (db.conversations.map (fun c => c.id)).Nodup ∧
  (∀ c ∈ db.conversations, 1 ≤ c.id ∧ c.id < db.nextConvId) ∧
  (db.participants.map (fun p => (p.conversation_id, p.user_id))).Nodup ∧
  (∀ p ∈ db.participants,
      (db.conversations.any (fun c => c.id = p.conversation_id)) = true ∧
      (db.users.any (fun u => u.id = p.user_id)) = true) ∧
  (db.messages.map (fun m => m.id)).Nodup ∧
  (∀ m ∈ db.messages, m.id < db.nextMsgId)

instance (db : ChatDatabase) : Decidable (Wf db) := by
  unfold Wf; infer_instance

/-- `ChatDatabase._getUserIdFromUsername`:
`SELECT id FROM user_table WHERE username = ?` and `fetchone()`. -/
def getUserIdFromUsername (db : ChatDatabase) (username : String) : Option Nat :=
  (db.users.find? (fun u => u.username = username)).map (fun u => u.id)

/-- The comparison implemented by `ORDER BY last_message_at DESC NULLS LAST`
(db_management.py, `getUserChats`): larger timestamps first, `NULL` last. -/
def descNullsLast : Option Nat → Option Nat → Bool
  | some a, some b => b ≤ a
  | some _, none => true
  | none, some _ => false
  | none, none => true

/-- The row ordering used by `ORDER BY last_message_at DESC NULLS LAST` as
a relation on conversation rows. -/
def convOrder (c1 c2 : ConversationRow) : Prop :=
  descNullsLast c1.last_message_at c2.last_message_at = true

instance : DecidableRel convOrder := fun c1 c2 => by
  unfold convOrder; infer_instance

instance : IsTotal ConversationRow convOrder :=
  ⟨fun a b => by
    unfold convOrder
    cases ha : a.last_message_at <;> cases hb : b.last_message_at <;>
      simp [descNullsLast] <;> omega⟩

instance : IsTrans ConversationRow convOrder :=
  ⟨fun a b c hab hbc => by
    unfold convOrder at hab hbc ⊢
    cases ha : a.last_message_at <;> cases hb : b.last_message_at <;>
      cases hc : c.last_message_at <;> rw [ha, hb] at hab <;> rw [hb, hc] at hbc <;>
      simp [descNullsLast] at hab hbc ⊢ <;> omega⟩

/-- `ChatDatabase.getUserChats`: returns `[]` when the username does not
resolve to a (truthy) user id, otherwise the ids of the conversations the
user participates in, ordered by `last_message_at DESC NULLS LAST` (SQL
leaves the permutation among equal keys open; the embedding picks a sorted
permutation deterministically). -/
def getUserChats (db : ChatDatabase) (username : String) : List Nat :=
  match getUserIdFromUsername db username with
  | none => []
  | some uid =>
    if uid = 0 then []
    else
      ((db.conversations.filter
          (fun c => db.participants.any
            (fun p => p.conversation_id = c.id && p.user_id = uid))).insertionSort
        convOrder).map (fun c => c.id)

/-- The `last_message_at` column of the conversation with a given id in a
list of conversation rows (`none` when absent). -/
def lastOf (convs : List ConversationRow) (cid : Nat) : Option Nat :=
  match convs.find? (fun c => c.id = cid) with
  | some c => c.last_message_at
  | none => none

/-- The `last_message_at` column of the conversation with a given id
(`none` when the conversation does not exist). -/
def convLast (db : ChatDatabase) (cid : Nat) : Option Nat :=
  lastOf db.conversations cid

/-- The spec-level membership predicate: the username resolves to a user id
that has a row in `conversation_participants` for this conversation. -/
def isParticipantB (db : ChatDatabase) (username : String) (cid : Nat) : Bool :=
  match getUserIdFromUsername db username with
  | none => false
  | some uid =>
    db.participants.any (fun p => p.conversation_id = cid && p.user_id = uid)

/-- The access check shared verbatim by the four authorized handlers in
app.py (`get_chat`, `send_message`, `add_user_to_chat`, `update_chat_name`):
`user_chats = get_chatdb().getUserChats(session['username'])` followed by
`if chat_id not in user_chats: ... 'Access denied'`.  `authorize` is the
granted side of that test. -/
def authorize (db : ChatDatabase) (username : String) (cid : Nat) : Bool :=
  (getUserChats db username).any (fun x => x = cid)

/-- `SELECT COUNT(*) FROM conversation_participants WHERE conversation_id = ?`. -/
def countParticipants (db : ChatDatabase) (cid : Nat) : Nat :=
  (db.participants.filter (fun p => p.conversation_id = cid)).length

/-- The `is_group_chat` flag of the conversation with a given id in a list
of conversation rows (`false` when absent). -/
def isGroupOf (convs : List ConversationRow) (cid : Nat) : Bool :=
  match convs.find? (fun c => c.id = cid) with
  | some c => c.is_group_chat
  | none => false

/-- The `is_group_chat` flag of a conversation in the database. -/
def isGroupChat (db : ChatDatabase) (cid : Nat) : Bool :=
  isGroupOf db.conversations cid

/-- The direct-conversation dedup condition of the SQL query in
`ChatDatabase.createConversation` (also `getDirectChatId`): conversation
`c` is not a group chat, the participants of `c` whose user id is `u1` or
`u2` cover two distinct user ids (`HAVING COUNT(DISTINCT user_id) = 2`),
and `c` has exactly two participant rows in total. -/
def matchesDirectPair (db : ChatDatabase) (c : ConversationRow) (u1 u2 : Nat) : Bool :=
  (!c.is_group_chat) &&
  (((db.participants.filter
      (fun p => p.conversation_id = c.id && (p.user_id = u1 || p.user_id = u2))).map
      (fun p => p.user_id)).dedup.length = 2) &&
  ((db.participants.filter (fun p => p.conversation_id = c.id)).length = 2)

/-- The dedup lookup of `createConversation`: the first conversation row
satisfying `matchesDirectPair` (SQL `fetchone()`), if any. -/
def existingDirectConv (db : ChatDatabase) (u1 u2 : Nat) : Option Nat :=
  (db.conversations.find? (fun c => matchesDirectPair db c u1 u2)).map (fun c => c.id)

/-- The user-id lookup loop of `createConversation`: resolves each username
in order, failing on the first unknown (or falsy) user id. -/
def lookupUserIds (db : ChatDatabase) : List String → Option (List Nat)
  | [] => some []
  | u :: rest =>
    match getUserIdFromUsername db u with
    | none => none
    | some uid =>
      if uid = 0 then none
      else (lookupUserIds db rest).map (fun ids => uid :: ids)

/-- The guarded dedup lookup of `createConversation`: the existing-direct
check runs only when exactly two distinct user ids remain
(`if len(user_ids) == 2`). -/
def directDedupHit (db : ChatDatabase) (user_ids : List Nat) : Option Nat :=
  match user_ids with
  | [u1, u2] => existingDirectConv db u1 u2
  | _ => none

/-- `ChatDatabase.createConversation(*usernames)`.  Checks the raw argument
count against 2 and 16, resolves user ids, removes duplicates
(`list(set(user_ids))`), returns an existing direct conversation for a
deduplicated pair, and otherwise inserts one conversation row and one
participant row per distinct user, committing at the end.  Returns the new
(or found) conversation id together with the post-state. -/
def createConversation (db : ChatDatabase) (now : Nat) (usernames : List String) :
    Option Nat × ChatDatabase :=
  if usernames.length < 2 then (none, db)
  else if 16 < usernames.length then (none, db)
  else
    match lookupUserIds db usernames with
    | none => (none, db)
    | some ids =>
      match directDedupHit db ids.dedup with
      | some cid => (some cid, db)
      | none =>
        (some db.nextConvId,
          { db with
            conversations := db.conversations ++
              [⟨db.nextConvId, none, decide (2 < ids.dedup.length), now, none⟩],
            participants := db.participants ++
              ids.dedup.map (fun uid => ⟨db.nextConvId, uid, now⟩),
            nextConvId := db.nextConvId + 1 })

/-- `ChatDatabase.addUserToConversation`.  Resolves the username, requires
the conversation to exist, succeeds as a no-op if the user is already a
member, enforces the 16-participant cap, flips `is_group_chat` when a
direct chat with two members gains a third, and inserts the membership
row. -/
def addUserToConversation (db : ChatDatabase) (now : Nat) (cid : Nat)
    (username : String) : Bool × ChatDatabase :=
  match getUserIdFromUsername db username with
  | none => (false, db)
  | some uid =>
    if uid = 0 then (false, db)
    else
      match db.conversations.find? (fun c => c.id = cid) with
      | none => (false, db)
      | some conv =>
        if db.participants.any (fun p => p.conversation_id = cid && p.user_id = uid) then
          (true, db)
        else
          let cnt := countParticipants db cid
          if 16 ≤ cnt then (false, db)
          else
            let db1 :=
              if !conv.is_group_chat && cnt = 2 then
                { db with
                  conversations := db.conversations.map
                    (fun c => if c.id = cid then { c with is_group_chat := true } else c) }
              else db
            (true, { db1 with participants := db1.participants ++ [⟨cid, uid, now⟩] })

/-- `ChatDatabase.updateChatName`: group chats only
(`UPDATE conversations SET name = ? WHERE id = ?`). -/
def updateChatName (db : ChatDatabase) (cid : Nat) (newName : String) :
    Bool × ChatDatabase :=
  match db.conversations.find? (fun c => c.id = cid) with
  | none => (false, db)
  | some conv =>
    if !conv.is_group_chat then (false, db)
    else
      (true,
        { db with
          conversations := db.conversations.map
            (fun c => if c.id = cid then { c with name := some newName } else c) })

/-- A write buffered inside the open SQLite transaction of
`appendMessage` before `commit()`. -/
inductive DbWrite where
  | insertMessage (m : MessageRow)
  | setLastMessageAt (cid : Nat) (t : Nat)
deriving DecidableEq, Repr

/-- Applying one buffered write to the committed database state. -/
def applyWrite (db : ChatDatabase) : DbWrite → ChatDatabase
  | .insertMessage m =>
    { db with messages := db.messages ++ [m], nextMsgId := db.nextMsgId + 1 }
  | .setLastMessageAt cid t =>
    { db with
      conversations := db.conversations.map
        (fun c => if c.id = cid then { c with last_message_at := some t } else c) }

/-- `commit()`: the buffered writes of the transaction become durable, in
statement order. -/
def commitWrites (db : ChatDatabase) (ws : List DbWrite) : ChatDatabase :=
  ws.foldl applyWrite db

/-- `ChatDatabase.appendMessage(conversation_id, sender_username, message)`
with persistence-failure injection: `fail k = true` makes the k-th database
statement raise (0: sender lookup, 1: participant check, 2: message INSERT,
3: last_message_at UPDATE, 4: COMMIT).  A raise is caught by the
`except` branch, which returns `False`; the writes buffered in the open
transaction were never committed, so the durable state is the pre-state.
`now` is the value of `get_utc_timestamp()` taken inside the call. -/
def appendMessage (db : ChatDatabase) (now : Nat) (cid : Nat)
    (senderUsername : String) (msg : String) (fail : Nat → Bool) :
    Bool × ChatDatabase :=
  if msg = "" then (false, db)
  else if fail 0 then (false, db)
  else
    match getUserIdFromUsername db senderUsername with
    | none => (false, db)
    | some senderId =>
      if senderId = 0 then (false, db)
      else if fail 1 then (false, db)
      else if !(db.participants.any
          (fun p => p.conversation_id = cid && p.user_id = senderId)) then
        (false, db)
      else if fail 2 then (false, db)
      else
        let pending1 := [DbWrite.insertMessage ⟨db.nextMsgId, cid, senderId, msg, now⟩]
        if fail 3 then (false, db)
        else
          let pending2 := pending1 ++ [DbWrite.setLastMessageAt cid now]
          if fail 4 then (false, db)
          else (true, commitWrites db pending2)

/-- The relational meaning of the message query of `_getDirectChat` and
`_getGroupChat`: `SELECT ... FROM messages m ... WHERE m.conversation_id = ?
ORDER BY m.timestamp ASC`.  SQL fixes the multiset of rows and sortedness
by the `ORDER BY` key; the relative order of rows with equal `timestamp` is
not specified by the query, so any compatible output list is admitted. -/
def orderedMessagesRel (db : ChatDatabase) (cid : Nat) (result : List MessageRow) : Prop :=
  result.Perm (db.messages.filter (fun m => m.conversation_id = cid)) ∧
  List.Pairwise (fun a b => a.timestamp ≤ b.timestamp) result

instance (l1 l2 : List MessageRow) : Decidable (l1.Perm l2) :=
  List.decidablePerm l1 l2

instance (db : ChatDatabase) (cid : Nat) (r : List MessageRow) :
    Decidable (orderedMessagesRel db cid r) := by
  unfold orderedMessagesRel; infer_instance

/-- One concrete output compatible with `orderedMessagesRel`: the stored
rows of the conversation sorted by `timestamp` alone. -/
def sortMessagesByTimestamp (db : ChatDatabase) (cid : Nat) : List MessageRow :=
  (db.messages.filter (fun m => m.conversation_id = cid)).mergeSort
    (fun a b => a.timestamp ≤ b.timestamp)

/-- Python `not message.strip()`: the string contains only whitespace
(stripping it leaves the empty string). -/
def isBlank (s : String) : Bool := s.data.all (fun c => c.isWhitespace)

/-- The HTTP outcome of the `send_message` route in app.py. -/
inductive SendResult where
  | badRequest
  | accessDenied
  | serverError
  | ok (timestamp : Nat)
deriving DecidableEq, Repr

/-- The `new_message` Socket.IO event emitted by `send_message` to room
`chat_{chat_id}`. -/
structure NewMessageEvent where
  chat_id : Nat
  sender : String
  sender_id : Nat
  message : String
  timestamp : Nat
deriving DecidableEq, Repr

/-- The `send_message` route of app.py.  `chat_id`/`message` are the
request-JSON fields (`none` when missing; a `0` chat id and a
whitespace-only message are falsy/empty and rejected).  `enc` is the
collaborator `encrypt_message` with the process key already applied.
`t1` is the value of `get_utc_timestamp()` read inside
`appendMessage`; `t2` is the value of the separate
`current_timestamp = get_utc_timestamp()` read the route takes after the
append.  Returns the HTTP outcome, the emitted `new_message` event if any,
and the database post-state. -/
def send_message (db : ChatDatabase) (sessionUsername : String) (sessionUserId : Nat)
    (chat_id : Option Nat) (message : Option String) (enc : String → String)
    (t1 t2 : Nat) (fail : Nat → Bool) :
    SendResult × Option NewMessageEvent × ChatDatabase :=
  match message with
  | none => (.badRequest, none, db)
  | some msg =>
    if isBlank msg then (.badRequest, none, db)
    else
      match chat_id with
      | none => (.badRequest, none, db)
      | some cid =>
        if cid = 0 then (.badRequest, none, db)
        else if !(authorize db sessionUsername cid) then (.accessDenied, none, db)
        else
          let r := appendMessage db t1 cid sessionUsername (enc msg) fail
          if !r.1 then (.serverError, none, r.2)
          else
            (.ok t2, some ⟨cid, sessionUsername, sessionUserId, msg, t2⟩, r.2)

/-- One entry of the module-level dict `active_users` in app.py:
username mapped to the stored socket id (`request.sid`). -/
def dictInsert (m : List (String × Nat)) (k : String) (v : Nat) : List (String × Nat) :=
  if m.any (fun e => e.1 = k) then m.map (fun e => if e.1 = k then (k, v) else e)
  else m ++ [(k, v)]

/-- Python `del d[k]` (k is present): every entry with key `k` is gone. -/
def dictDelete (m : List (String × Nat)) (k : String) : List (String × Nat) :=
  m.filter (fun e => !(e.1 = k))

/-- `d.get(k)` over the association-list model of a Python dict. -/
def dictLookup (m : List (String × Nat)) (k : String) : Option Nat :=
  (m.find? (fun e => e.1 = k)).map (fun e => e.2)

/-- The presence-relevant server state: the module-level `active_users`
dict of app.py, plus the set of actually open socket connections
(username, socket id) that the Flask-SocketIO layer maintains; the latter
is what "a live connection" means in the spec. -/
structure ServerState where
  active_users : List (String × Nat)
  live : List (String × Nat)
deriving DecidableEq, Repr

/-- A global `user_status_change` broadcast. -/
structure Broadcast where
  username : String
  status : String
deriving DecidableEq, Repr

/-- The `connect` handler of app.py for a logged-in session: the new
connection becomes live, `active_users[username] = request.sid`
(overwriting any previous handle), and an `online` status is broadcast. -/
def on_connect (st : ServerState) (username : String) (sid : Nat) :
    ServerState × List Broadcast :=
  ({ active_users := dictInsert st.active_users username sid,
     live := st.live ++ [(username, sid)] },
   [⟨username, "online"⟩])

/-- The `disconnect` handler of app.py for a logged-in session: the
connection `sid` stops being live; if the username has an entry in
`active_users` it is deleted and `offline` is broadcast — the handler
never compares the stored handle with the disconnecting `sid`. -/
def on_disconnect (st : ServerState) (username : String) (sid : Nat) :
    ServerState × List Broadcast :=
  let live1 := st.live.filter (fun e => !(e.1 = username && e.2 = sid))
  if st.active_users.any (fun e => e.1 = username) then
    ({ active_users := dictDelete st.active_users username, live := live1 },
     [⟨username, "offline"⟩])
  else
    ({ st with live := live1 }, [])

/-- One socket lifecycle event. -/
inductive SessionEvent where
  | connect (username : String) (sid : Nat)
  | disconnect (username : String) (sid : Nat)
deriving DecidableEq, Repr

/-- The state transition of one lifecycle event. -/
def stepState (st : ServerState) : SessionEvent → ServerState
  | .connect u s => (on_connect st u s).1
  | .disconnect u s => (on_disconnect st u s).1

/-- Run a sequence of lifecycle events from a state. -/
def runEvents (st : ServerState) (es : List SessionEvent) : ServerState :=
  es.foldl stepState st

/-- The process state at startup: no connections, empty `active_users`. -/
def initialState : ServerState := ⟨[], []⟩

/-! Concrete database states used to instantiate the theorems. -/

/-- Three registered users; Alice (id 1) and Boby (id 2) share the direct
conversation 1; Carol (id 3) is in no conversation. -/
def exDbA : ChatDatabase :=
  { users := [⟨1, "Alice", "pw1", "UTC", 10⟩, ⟨2, "Boby", "pw2", "UTC", 11⟩,
              ⟨3, "Carol", "pw3", "UTC", 12⟩],
    conversations := [⟨1, none, false, 20, none⟩],
    participants := [⟨1, 1, 20⟩, ⟨1, 2, 20⟩],
    messages := [],
    nextConvId := 2, nextMsgId := 1 }

/-- A single registered user named "a". -/
def exDbB : ChatDatabase :=
  { users := [⟨1, "a", "pw", "UTC", 10⟩],
    conversations := [],
    participants := [],
    messages := [],
    nextConvId := 1, nextMsgId := 1 }

/-- Message rows with equal timestamps and increasing ids. -/
def m1ex : MessageRow := ⟨1, 1, 1, "cipher1", 10⟩

/-- Second message of conversation 1 with the same timestamp as `m1ex`. -/
def m2ex : MessageRow := ⟨2, 1, 2, "cipher2", 10⟩

/-- `exDbA` after two messages with equal timestamps landed in
conversation 1. -/
def exDbC : ChatDatabase :=
  { exDbA with
    conversations := [⟨1, none, false, 20, some 10⟩],
    messages := [m1ex, m2ex],
    nextMsgId := 3 }

/-- Alice participates in three conversations whose `last_message_at`
values are 100, NULL and 300 (the listing example of the spec). -/
def exDbD : ChatDatabase :=
  { users := [⟨1, "Alice", "pw1", "UTC", 10⟩],
    conversations := [⟨1, none, false, 20, some 100⟩,
                      ⟨2, none, false, 21, none⟩,
                      ⟨3, none, false, 22, some 300⟩],
    participants := [⟨1, 1, 20⟩, ⟨2, 1, 21⟩, ⟨3, 1, 22⟩],
    messages := [],
    nextConvId := 4, nextMsgId := 1 }

/-- Sixteen registered users u1 .. u16. -/
def exDb16 : ChatDatabase :=
  { users := (List.range 16).map
      (fun i => ⟨i + 1, "u" ++ toString (i + 1), "pw", "UTC", 0⟩),
    conversations := [],
    participants := [],
    messages := [],
    nextConvId := 1, nextMsgId := 1 }

/-- The sixteen usernames of `exDb16`. -/
def names16 : List String := (List.range 16).map (fun i => "u" ++ toString (i + 1))

/-! Helper lemmas about the embedded operations. -/

theorem userId_row {db : ChatDatabase} {u : String} {uid : Nat}
    (h : getUserIdFromUsername db u = some uid) :
    ∃ r ∈ db.users, r.username = u ∧ r.id = uid := by
  unfold getUserIdFromUsername at h
  cases hf : db.users.find? (fun r => r.username = u) with
  | none => rw [hf] at h; simp at h
  | some r =>
    rw [hf] at h
    simp at h
    refine ⟨r, List.mem_of_find?_eq_some hf, ?_, h⟩
    simpa using List.find?_some hf

theorem userId_pos {db : ChatDatabase} {u : String} {uid : Nat} (hwf : Wf db)
    (h : getUserIdFromUsername db u = some uid) : uid ≠ 0 := by
  obtain ⟨r, hr, -, hid⟩ := userId_row h
  have := hwf.2.2.1 r hr
  omega

theorem userId_inj {db : ChatDatabase} {a b : String} {x : Nat} (hwf : Wf db)
    (ha : getUserIdFromUsername db a = some x)
    (hb : getUserIdFromUsername db b = some x) : a = b := by
  obtain ⟨ra, hra, hua, hia⟩ := userId_row ha
  obtain ⟨rb, hrb, hub, hib⟩ := userId_row hb
  have hr : ra = rb := List.inj_on_of_nodup_map hwf.1 hra hrb (by rw [hia, hib])
  rw [← hua, ← hub, hr]

theorem find?_map_update (convs : List ConversationRow) (cid : Nat)
    (g : ConversationRow → ConversationRow) (hid : ∀ c, (g c).id = c.id) :
    (convs.map (fun c => if c.id = cid then g c else c)).find? (fun c => c.id = cid) =
      (convs.find? (fun c => c.id = cid)).map
        (fun c => if c.id = cid then g c else c) := by
  rw [List.find?_map]
  have hp : ((fun c => decide (c.id = cid)) ∘ fun c => if c.id = cid then g c else c) =
      (fun c : ConversationRow => decide (c.id = cid)) := by
    funext c
    by_cases hc : c.id = cid <;> simp [Function.comp, hc, hid]
  rw [hp]

theorem lastOf_set (convs : List ConversationRow) (cid t : Nat)
    (h : convs.any (fun c => c.id = cid) = true) :
    lastOf
      (convs.map (fun c => if c.id = cid then { c with last_message_at := some t } else c))
      cid = some t := by
  unfold lastOf
  rw [find?_map_update convs cid (fun c => { c with last_message_at := some t })
    (fun c => rfl)]
  obtain ⟨c, hc, hcp⟩ := List.any_eq_true.mp h
  have hs : (convs.find? (fun c => c.id = cid)).isSome = true :=
    List.find?_isSome.mpr ⟨c, hc, hcp⟩
  cases hf : convs.find? (fun c => c.id = cid) with
  | none => rw [hf] at hs; simp at hs
  | some c0 =>
    have : c0.id = cid := by simpa using List.find?_some hf
    simp [this]

theorem isGroupOf_set (convs : List ConversationRow) (cid : Nat)
    (h : convs.any (fun c => c.id = cid) = true) :
    isGroupOf
      (convs.map (fun c => if c.id = cid then { c with is_group_chat := true } else c))
      cid = true := by
  unfold isGroupOf
  rw [find?_map_update convs cid (fun c => { c with is_group_chat := true })
    (fun c => rfl)]
  obtain ⟨c, hc, hcp⟩ := List.any_eq_true.mp h
  have hs : (convs.find? (fun c => c.id = cid)).isSome = true :=
    List.find?_isSome.mpr ⟨c, hc, hcp⟩
  cases hf : convs.find? (fun c => c.id = cid) with
  | none => rw [hf] at hs; simp at hs
  | some c0 =>
    have : c0.id = cid := by simpa using List.find?_some hf
    simp [this]

theorem isGroupOf_map_mono (convs : List ConversationRow) (cid : Nat)
    (f : ConversationRow → ConversationRow) (hid : ∀ c, (f c).id = c.id)
    (hgr : ∀ c, c.is_group_chat = true → (f c).is_group_chat = true)
    (h : isGroupOf convs cid = true) : isGroupOf (convs.map f) cid = true := by
  unfold isGroupOf at h ⊢
  rw [List.find?_map]
  have hp : ((fun c => decide (c.id = cid)) ∘ f) =
      (fun c : ConversationRow => decide (c.id = cid)) := by
    funext c; simp [Function.comp, hid]
  rw [hp]
  cases hf : convs.find? (fun c => c.id = cid) with
  | none => rw [hf] at h; simp at h
  | some c0 =>
    rw [hf] at h
    exact hgr c0 h

theorem isGroupOf_append (convs l2 : List ConversationRow) (cid : Nat)
    (h : isGroupOf convs cid = true) : isGroupOf (convs ++ l2) cid = true := by
  unfold isGroupOf at h ⊢
  rw [List.find?_append]
  cases hf : convs.find? (fun c => c.id = cid) with
  | none => rw [hf] at h; simp at h
  | some c0 => rw [hf] at h; exact h

theorem find?_eq_of_mem_nodup {convs : List ConversationRow} {c : ConversationRow}
    (hnd : (convs.map (fun x => x.id)).Nodup) (hc : c ∈ convs) :
    convs.find? (fun x => x.id = c.id) = some c := by
  induction convs with
  | nil => simp at hc
  | cons x tl ih =>
    simp only [List.map_cons, List.nodup_cons] at hnd
    by_cases hx : x.id = c.id
    · have hxc : x = c := by
        rcases List.mem_cons.mp hc with h | htl
        · exact h.symm
        · exact absurd (hx ▸ List.mem_map_of_mem (fun y => y.id) htl) hnd.1
      subst hxc
      simp [List.find?_cons]
    · have htl : c ∈ tl := by
        rcases List.mem_cons.mp hc with h | htl2
        · exact absurd (congrArg (fun y => y.id) h.symm) hx
        · exact htl2
      simp [List.find?_cons, hx, ih hnd.2 htl]

theorem lastOf_of_mem {convs : List ConversationRow} {c : ConversationRow}
    (hnd : (convs.map (fun x => x.id)).Nodup) (hc : c ∈ convs) :
    lastOf convs c.id = c.last_message_at := by
  unfold lastOf
  rw [find?_eq_of_mem_nodup hnd hc]

theorem getUserId_of_exists {db : ChatDatabase} {n : String}
    (h : ∃ r ∈ db.users, r.username = n) :
    ∃ uid, getUserIdFromUsername db n = some uid := by
  obtain ⟨r, hr, hn⟩ := h
  unfold getUserIdFromUsername
  have hs : (db.users.find? (fun u => u.username = n)).isSome = true :=
    List.find?_isSome.mpr ⟨r, hr, by simp [hn]⟩
  obtain ⟨u0, hu0⟩ := Option.isSome_iff_exists.mp hs
  exact ⟨u0.id, by rw [hu0]; rfl⟩

theorem lookupUserIds_exists {db : ChatDatabase} (hwf : Wf db) :
    ∀ names : List String, (∀ n ∈ names, ∃ r ∈ db.users, r.username = n) →
    ∃ ids, lookupUserIds db names = some ids ∧ ids.length = names.length ∧
      (∀ x ∈ ids, ∃ m ∈ names, getUserIdFromUsername db m = some x) ∧
      (names.Nodup → ids.Nodup) := by
  intro names
  induction names with
  | nil => intro _; exact ⟨[], rfl, rfl, by simp, fun _ => List.nodup_nil⟩
  | cons n rest ih =>
    intro hex
    obtain ⟨uid, hu⟩ := getUserId_of_exists (hex n (List.mem_cons_self n rest))
    obtain ⟨ids, hl, hlen, hsrc, hnd⟩ :=
      ih (fun m hm => hex m (List.mem_cons_of_mem n hm))
    have h0 : uid ≠ 0 := userId_pos hwf hu
    refine ⟨uid :: ids, ?_, by simp [hlen], ?_, ?_⟩
    · unfold lookupUserIds
      rw [hu, hl]
      simp [h0]
    · intro x hx
      rcases List.mem_cons.mp hx with rfl | hx2
      · exact ⟨n, List.mem_cons_self n rest, hu⟩
      · obtain ⟨m, hm, hm2⟩ := hsrc x hx2
        exact ⟨m, List.mem_cons_of_mem n hm, hm2⟩
    · intro hnod
      obtain ⟨hn1, hn2⟩ := List.nodup_cons.mp hnod
      refine List.nodup_cons.mpr ⟨?_, hnd hn2⟩
      intro hmem
      obtain ⟨m, hm, hm2⟩ := hsrc uid hmem
      exact hn1 (userId_inj hwf hu hm2 ▸ hm)

theorem lookupUserIds_pair {db : ChatDatabase} {a b : String} {ua ub : Nat}
    (ha : getUserIdFromUsername db a = some ua)
    (hb : getUserIdFromUsername db b = some ub)
    (ha0 : ua ≠ 0) (hb0 : ub ≠ 0) :
    lookupUserIds db [a, b] = some [ua, ub] := by
  unfold lookupUserIds
  rw [ha]
  unfold lookupUserIds
  rw [hb]
  simp [ha0, hb0, lookupUserIds]

theorem dedup_pair {a b : Nat} (h : a ≠ b) : ([a, b] : List Nat).dedup = [a, b] := by
  rw [List.dedup_cons_of_not_mem (by simp [h]),
    List.dedup_cons_of_not_mem (by simp)]
  simp

theorem matchesDirectPair_congr {db2 db : ChatDatabase} (c : ConversationRow)
    (u1 u2 : Nat)
    (h : db2.participants.filter (fun p => p.conversation_id = c.id) =
         db.participants.filter (fun p => p.conversation_id = c.id)) :
    matchesDirectPair db2 c u1 u2 = matchesDirectPair db c u1 u2 := by
  unfold matchesDirectPair
  have e1 : ∀ l : List ParticipantRow,
      l.filter (fun p => p.conversation_id = c.id &&
        (p.user_id = u1 || p.user_id = u2)) =
      (l.filter (fun p => p.conversation_id = c.id)).filter
        (fun p => p.user_id = u1 || p.user_id = u2) := by
    intro l
    rw [List.filter_filter]
    refine List.filter_congr ?_
    intro p _
    exact Bool.and_comm _ _
  rw [e1, e1, h]

theorem participants_filter_fresh {db : ChatDatabase} (hwf : Wf db) :
    db.participants.filter (fun p => p.conversation_id = db.nextConvId) = [] := by
  refine List.filter_eq_nil_iff.mpr ?_
  intro p hp
  simp only [decide_eq_true_eq]
  intro hpc
  obtain ⟨c, hc, hcp⟩ := List.any_eq_true.mp (hwf.2.2.2.2.2.2.1 p hp).1
  simp only [decide_eq_true_eq] at hcp
  have hlt := (hwf.2.2.2.2.1 c hc).2
  omega

theorem descNullsLast_trans (a b c : Option Nat) (hab : descNullsLast a b = true)
    (hbc : descNullsLast b c = true) : descNullsLast a c = true := by
  cases a <;> cases b <;> cases c <;> simp [descNullsLast] at * <;> omega

theorem descNullsLast_total (a b : Option Nat) :
    (descNullsLast a b || descNullsLast b a) = true := by
  cases a <;> cases b <;> simp [descNullsLast] <;> omega

theorem mem_getUserChats {db : ChatDatabase} (u : String) (c : Nat) (hwf : Wf db) :
    c ∈ getUserChats db u ↔ isParticipantB db u c = true := by
  unfold getUserChats isParticipantB
  cases hu : getUserIdFromUsername db u with
  | none => simp
  | some uid =>
    have huid : uid ≠ 0 := userId_pos hwf hu
    simp only [huid, if_false]
    constructor
    · intro hm
      obtain ⟨conv, hconv, hid⟩ := List.mem_map.mp hm
      have hconv2 := (List.mem_insertionSort convOrder).mp hconv
      obtain ⟨hmem, hq⟩ := List.mem_filter.mp hconv2
      obtain ⟨p, hp, hpq⟩ := List.any_eq_true.mp hq
      refine List.any_eq_true.mpr ⟨p, hp, ?_⟩
      simp only [Bool.and_eq_true, decide_eq_true_eq] at hpq ⊢
      exact ⟨hid ▸ hpq.1, hpq.2⟩
    · intro hpart
      obtain ⟨p, hp, hpq⟩ := List.any_eq_true.mp hpart
      simp only [Bool.and_eq_true, decide_eq_true_eq] at hpq
      have href := (hwf.2.2.2.2.2.2.1 p hp).1
      obtain ⟨conv, hconv, hcp⟩ := List.any_eq_true.mp href
      simp only [decide_eq_true_eq] at hcp
      refine List.mem_map.mpr ⟨conv, ?_, by rw [hcp, hpq.1]⟩
      refine (List.mem_insertionSort convOrder).mpr (List.mem_filter.mpr ⟨hconv, ?_⟩)
      refine List.any_eq_true.mpr ⟨p, hp, ?_⟩
      simp only [Bool.and_eq_true, decide_eq_true_eq]
      exact ⟨hcp.symm, hpq.2⟩

theorem commitWrites_pair (db : ChatDatabase) (m : MessageRow) (cid t : Nat) :
    commitWrites db [DbWrite.insertMessage m, DbWrite.setLastMessageAt cid t] =
      { db with
        messages := db.messages ++ [m],
        nextMsgId := db.nextMsgId + 1,
        conversations := db.conversations.map
          (fun c => if c.id = cid then { c with last_message_at := some t } else c) } :=
  rfl

theorem appendMessage_cases (db : ChatDatabase) (now cid : Nat) (sender msg : String)
    (fail : Nat → Bool) :
    (appendMessage db now cid sender msg fail = (false, db)) ∨
    (∃ sid, getUserIdFromUsername db sender = some sid ∧
      (db.participants.any (fun p => p.conversation_id = cid && p.user_id = sid)) = true ∧
      appendMessage db now cid sender msg fail =
        (true, commitWrites db
          [DbWrite.insertMessage ⟨db.nextMsgId, cid, sid, msg, now⟩,
           DbWrite.setLastMessageAt cid now])) := by
  unfold appendMessage
  by_cases h0 : msg = ""
  · left; simp [h0]
  by_cases h1 : fail 0 = true
  · left; simp [h0, h1]
  cases hu : getUserIdFromUsername db sender with
  | none => left; simp [h0, h1, hu]
  | some sid =>
    by_cases h2 : sid = 0
    · left; simp [h0, h1, hu, h2]
    by_cases h3 : fail 1 = true
    · left; simp [h0, h1, hu, h2, h3]
    by_cases h4 : (db.participants.any
        (fun p => p.conversation_id = cid && p.user_id = sid)) = true
    · by_cases h5 : fail 2 = true
      · left; simp [h0, h1, hu, h2, h3, h4, h5]
      by_cases h6 : fail 3 = true
      · left; simp [h0, h1, hu, h2, h3, h4, h6]
      by_cases h7 : fail 4 = true
      · left; simp [h0, h1, hu, h2, h3, h4, h5, h6, h7]
      · right
        refine ⟨sid, rfl, h4, ?_⟩
        simp [h0, h1, hu, h2, h3, h4, h5, h6, h7]
    · left; simp [h0, h1, hu, h2, h3, h4]

theorem dictInsert_keys_nodup (m : List (String × Nat)) (k : String) (v : Nat)
    (h : (m.map Prod.fst).Nodup) : ((dictInsert m k v).map Prod.fst).Nodup := by
  unfold dictInsert
  by_cases hk : m.any (fun e => e.1 = k) = true
  · simp only [hk, if_true]
    have hkeys : (m.map (fun e => if e.1 = k then (k, v) else e)).map Prod.fst =
        m.map Prod.fst := by
      rw [List.map_map]
      apply List.map_congr_left
      intro e he
      by_cases h1 : e.1 = k <;> simp [Function.comp, h1]
    rw [hkeys]; exact h
  · rw [if_neg hk, List.map_append]
    refine List.nodup_append.mpr ⟨h, by simp, ?_⟩
    intro x hx hx2
    simp only [List.map_cons, List.map_nil, List.mem_singleton] at hx2
    obtain ⟨e, he, hef⟩ := List.mem_map.mp hx
    exact hk (List.any_eq_true.mpr ⟨e, he, by simp [hef, hx2]⟩)

theorem dictDelete_keys_nodup (m : List (String × Nat)) (k : String)
    (h : (m.map Prod.fst).Nodup) : ((dictDelete m k).map Prod.fst).Nodup :=
  List.Nodup.sublist (List.Sublist.map Prod.fst (List.filter_sublist m)) h

theorem stepState_keys_nodup (st : ServerState) (e : SessionEvent)
    (h : (st.active_users.map Prod.fst).Nodup) :
    (((stepState st e).active_users).map Prod.fst).Nodup := by
  cases e with
  | connect u s => exact dictInsert_keys_nodup _ _ _ h
  | disconnect u s =>
    unfold stepState on_disconnect
    by_cases hc : st.active_users.any (fun e => e.1 = u) = true
    · simp only [hc, if_true]
      exact dictDelete_keys_nodup _ _ h
    · simp only [hc, if_false]
      exact h

theorem runEvents_keys_nodup (es : List SessionEvent) :
    ∀ st : ServerState, (st.active_users.map Prod.fst).Nodup →
    (((runEvents st es).active_users).map Prod.fst).Nodup := by
  induction es with
  | nil => intro st h; exact h
  | cons e tl ih =>
    intro st h
    exact ih (stepState st e) (stepState_keys_nodup st e h)

theorem filter_key_single {m : List (String × Nat)} {k : String}
    (hnd : (m.map Prod.fst).Nodup) (h : m.any (fun e => e.1 = k) = true) :
    ∃ v0, m.filter (fun e => e.1 = k) = [(k, v0)] := by
  induction m with
  | nil => simp at h
  | cons x tl ih =>
    simp only [List.map_cons, List.nodup_cons] at hnd
    by_cases hx : x.1 = k
    · refine ⟨x.2, ?_⟩
      have htl : tl.filter (fun e => e.1 = k) = [] := by
        refine List.filter_eq_nil_iff.mpr ?_
        intro e he
        simp only [decide_eq_true_eq]
        intro hek
        exact hnd.1 (hx ▸ hek ▸ List.mem_map_of_mem Prod.fst he)
      have hxp : x = (k, x.2) := by
        cases x; simp at hx; simp [hx]
      simp [List.filter_cons, hx, htl, ← hxp]
    · have h2 : tl.any (fun e => e.1 = k) = true := by
        rcases List.any_eq_true.mp h with ⟨e, he, hek⟩
        rcases List.mem_cons.mp he with rfl | he2
        · simp only [decide_eq_true_eq] at hek
          exact absurd hek hx
        · exact List.any_eq_true.mpr ⟨e, he2, hek⟩
      obtain ⟨v0, hf⟩ := ih hnd.2 h2
      exact ⟨v0, by simp [List.filter_cons, hx, hf]⟩

theorem dictInsert_filter {m : List (String × Nat)} (k : String) (v : Nat)
    (hnd : (m.map Prod.fst).Nodup) :
    (dictInsert m k v).filter (fun e => e.1 = k) = [(k, v)] := by
  unfold dictInsert
  by_cases hk : m.any (fun e => e.1 = k) = true
  · simp only [hk, if_true]
    obtain ⟨v0, hf⟩ := filter_key_single hnd hk
    have hpg : ∀ e : String × Nat,
        (decide ((if e.1 = k then (k, v) else e).1 = k)) = decide (e.1 = k) := by
      intro e
      by_cases h1 : e.1 = k <;> simp [h1]
    rw [List.filter_map]
    · have hpe : (fun e : String × Nat => decide (e.1 = k)) ∘
          (fun e : String × Nat => if e.1 = k then (k, v) else e) =
          (fun e : String × Nat => decide (e.1 = k)) := by
        funext e; exact hpg e
      rw [hpe, hf]
      simp
  · rw [if_neg hk, List.filter_append]
    have hf : m.filter (fun e => e.1 = k) = [] := by
      refine List.filter_eq_nil_iff.mpr ?_
      intro e he
      simp only [decide_eq_true_eq]
      intro hek
      exact hk (List.any_eq_true.mpr ⟨e, he, by simp [hek]⟩)
    simp [hf]

theorem dictLookup_dictInsert (m : List (String × Nat)) (k : String) (v : Nat) :
    dictLookup (dictInsert m k v) k = some v := by
  unfold dictLookup dictInsert
  by_cases hk : m.any (fun e => e.1 = k) = true
  · simp only [hk, if_true]
    rw [List.find?_map]
    have hpe : (fun e : String × Nat => decide (e.1 = k)) ∘
        (fun e : String × Nat => if e.1 = k then (k, v) else e) =
        (fun e : String × Nat => decide (e.1 = k)) := by
      funext e
      by_cases h1 : e.1 = k <;> simp [h1]
    rw [hpe]
    obtain ⟨e, he, hek⟩ := List.any_eq_true.mp hk
    have hs : (m.find? (fun e => e.1 = k)).isSome = true :=
      List.find?_isSome.mpr ⟨e, he, hek⟩
    cases hf : m.find? (fun e => e.1 = k) with
    | none => rw [hf] at hs; simp at hs
    | some e0 =>
      have he0 : e0.1 = k := by simpa using List.find?_some hf
      simp [he0]
  · rw [if_neg hk, List.find?_append]
    have hf : m.find? (fun e => e.1 = k) = none := by
      refine List.find?_eq_none.mpr ?_
      intro e he
      simp only [decide_eq_true_eq]
      intro hek
      exact hk (List.any_eq_true.mpr ⟨e, he, by simp [hek]⟩)
    simp [hf]

/-! Claim theorems. -/

/-- C8: the claim says a disconnect of the first of two concurrent
connections of the same user never broadcasts an offline presence event
while the second connection remains connected.  The code violates it: after
`connect(alice)` on socket 1 and `connect(alice)` on socket 2, running the
`disconnect` handler for socket 1 deletes the `active_users` entry (which
holds socket 2's handle) and broadcasts `offline` even though socket 2 is
still live. -/
theorem stale_presence_offline_broadcast :
    (on_disconnect
      (runEvents initialState
        [SessionEvent.connect "alice" 1, SessionEvent.connect "alice" 2])
      "alice" 1).2 = [⟨"alice", "offline"⟩] ∧
    ("alice", 2) ∈ (on_disconnect
      (runEvents initialState
        [SessionEvent.connect "alice" 1, SessionEvent.connect "alice" 2])
      "alice" 1).1.live := by
  decide

/-- C10: the process-wide `active_users` dict holds at most one handle per
username after any sequence of connect/disconnect events starting from the
empty process state, and a connect for an already-present username
overwrites the stored handle with the new socket id (last writer wins):
afterwards the user's only entry is the new one and lookup returns it. -/
theorem active_users_single_handle (es : List SessionEvent) (st : ServerState)
    (u : String) (s : Nat) (h : (st.active_users.map Prod.fst).Nodup) :
    (((runEvents initialState es).active_users).map Prod.fst).Nodup ∧
    ((on_connect st u s).1.active_users.filter (fun e => e.1 = u)) = [(u, s)] ∧
    dictLookup (on_connect st u s).1.active_users u = some s :=
  ⟨runEvents_keys_nodup es initialState List.nodup_nil,
   dictInsert_filter u s h,
   dictLookup_dictInsert st.active_users u s⟩

/-- Witness for C10: a second connect for alice overwrites her handle. -/
theorem active_users_single_handle_witness :
    ((([("alice", 1)] : List (String × Nat)).map Prod.fst).Nodup) ∧
    ((((runEvents initialState
        [SessionEvent.connect "alice" 1, SessionEvent.connect "alice" 2]).active_users).map
          Prod.fst).Nodup ∧
      ((on_connect ⟨[("alice", 1)], [("alice", 1)]⟩ "alice" 2).1.active_users.filter
        (fun e => e.1 = "alice")) = [("alice", 2)] ∧
      dictLookup (on_connect ⟨[("alice", 1)], [("alice", 1)]⟩ "alice" 2).1.active_users
        "alice" = some 2) :=
  ⟨by decide,
   active_users_single_handle
     [SessionEvent.connect "alice" 1, SessionEvent.connect "alice" 2]
     ⟨[("alice", 1)], [("alice", 1)]⟩ "alice" 2 (by decide)⟩

/-- C6 counterexample: the claim says fetched messages are sorted ascending
by the pair (timestamp, id), with the smaller id first on equal timestamps.
The queries of `_getDirectChat` and `_getGroupChat` order by
`timestamp ASC` alone, so an output with equal-timestamp messages in
decreasing id order is admitted by the query semantics: `[m2ex, m1ex]` is a
valid result for conversation 1 of `exDbC` but violates the id tie-break. -/
theorem fetch_tiebreak_refuted :
    ¬ (∀ db cid r, orderedMessagesRel db cid r →
        List.Pairwise (fun a b : MessageRow =>
          a.timestamp < b.timestamp ∨ (a.timestamp = b.timestamp ∧ a.id < b.id)) r) := by
  intro h
  have hc := h exDbC 1 [m2ex, m1ex] (by decide)
  exact absurd hc (by decide)

/-- C6 amended: every result admitted by the message query is a permutation
of the conversation's stored messages and is sorted ascending by timestamp
(for unequal timestamps the earlier one comes first); the relative order of
equal-timestamp messages is not specified (no id tie-break).  The
timestamp-sorted list itself is one admitted result. -/
theorem fetch_sorted_by_timestamp (db : ChatDatabase) (cid : Nat) (r : List MessageRow)
    (h : orderedMessagesRel db cid r) :
    r.Perm (db.messages.filter (fun m => m.conversation_id = cid)) ∧
    (∀ i j : Fin r.length, i < j → (r.get i).timestamp ≤ (r.get j).timestamp) ∧
    orderedMessagesRel db cid (sortMessagesByTimestamp db cid) := by
  refine ⟨h.1, ?_, ?_⟩
  · intro i j hij
    exact List.pairwise_iff_get.mp h.2 i j hij
  · have htrans : ∀ a b c : MessageRow,
        (decide (a.timestamp ≤ b.timestamp)) = true →
        (decide (b.timestamp ≤ c.timestamp)) = true →
        (decide (a.timestamp ≤ c.timestamp)) = true := by
      intro a b c hab hbc
      simp only [decide_eq_true_eq] at hab hbc ⊢
      omega
    have htotal : ∀ a b : MessageRow,
        ((decide (a.timestamp ≤ b.timestamp)) ||
          (decide (b.timestamp ≤ a.timestamp))) = true := by
      intro a b
      simp only [Bool.or_eq_true, decide_eq_true_eq]
      omega
    refine ⟨List.mergeSort_perm _ _, ?_⟩
    have hs := List.sorted_mergeSort htrans htotal
      (db.messages.filter (fun m => m.conversation_id = cid))
    exact hs.imp (fun hab => by simpa using hab)

/-- Witness for the amended C6 at a concrete database and result. -/
theorem fetch_sorted_by_timestamp_witness :
    orderedMessagesRel exDbC 1 [m1ex, m2ex] ∧
    (([m1ex, m2ex] : List MessageRow).Perm
        (exDbC.messages.filter (fun m => m.conversation_id = 1)) ∧
      (∀ i j : Fin ([m1ex, m2ex] : List MessageRow).length, i < j →
        (([m1ex, m2ex] : List MessageRow).get i).timestamp ≤
          (([m1ex, m2ex] : List MessageRow).get j).timestamp) ∧
      orderedMessagesRel exDbC 1 (sortMessagesByTimestamp exDbC 1)) :=
  ⟨by decide, fetch_sorted_by_timestamp exDbC 1 [m1ex, m2ex] (by decide)⟩

/-- C9 counterexample: the claim says the timestamp returned to the caller
and carried in the `new_message` event equals the timestamp stored on the
persisted message (the value written to `last_message_at`).  The route
takes a second `get_utc_timestamp()` reading after the append, so when the
clock advances between the two reads (t1 = 5 inside `appendMessage`,
t2 = 6 in the route) the stored `last_message_at` is 5 while the returned
timestamp is 6. -/
theorem send_message_timestamp_refuted :
    ¬ (∀ db u uid cid msg enc t1 t2 fail ts,
        (send_message db u uid (some cid) (some msg) enc t1 t2 fail).1 =
          SendResult.ok ts →
        convLast (send_message db u uid (some cid) (some msg) enc t1 t2 fail).2.2
          cid = some ts) := by
  intro h
  have hc := h exDbA "Alice" 1 1 "hi" (fun s => s) 5 6 (fun _ => false) 6 (by decide)
  exact absurd hc (by decide)

/-- C9 amended: a successful `send_message` returns and fans out the
route's own second clock reading t2, while the persisted message and the
conversation's `last_message_at` carry the reading t1 taken inside
`appendMessage`; the two agree exactly when the clock does not advance
between the reads. -/
theorem send_message_two_clock_reads (db : ChatDatabase) (u : String) (uid cid : Nat)
    (msg : String) (enc : String → String) (t1 t2 : Nat) (fail : Nat → Bool)
    (ts : Nat) (ev : NewMessageEvent) (db2 : ChatDatabase) (hwf : Wf db)
    (h : send_message db u uid (some cid) (some msg) enc t1 t2 fail =
      (SendResult.ok ts, some ev, db2)) :
    ts = t2 ∧ ev.timestamp = t2 ∧
    (∃ sid, getUserIdFromUsername db u = some sid ∧
      db2.messages = db.messages ++ [⟨db.nextMsgId, cid, sid, enc msg, t1⟩]) ∧
    convLast db2 cid = some t1 ∧
    (t1 = t2 → convLast db2 cid = some ts) := by
  simp only [send_message] at h
  by_cases h0 : isBlank msg = true
  · rw [if_pos h0] at h; cases h
  rw [if_neg h0] at h
  by_cases h1 : cid = 0
  · rw [if_pos h1] at h; cases h
  rw [if_neg h1] at h
  cases hA : authorize db u cid with
  | false => rw [hA] at h; cases h
  | true =>
    rw [hA] at h
    simp only [Bool.not_true, Bool.false_eq_true, if_false] at h
    rcases appendMessage_cases db t1 cid u (enc msg) fail with ⟨hfe⟩ | ⟨sid, hsid, hany, heq⟩
    · rw [hfe] at h; cases h
    · rw [heq] at h
      simp only [Bool.not_true, Bool.false_eq_true, if_false, Prod.mk.injEq,
        SendResult.ok.injEq, Option.some.injEq] at h
      obtain ⟨hts, hev, hdb2⟩ := h
      have hconvany : db.conversations.any (fun c2 => c2.id = cid) = true := by
        obtain ⟨p, hp, hpq⟩ := List.any_eq_true.mp hany
        simp only [Bool.and_eq_true, decide_eq_true_eq] at hpq
        have href := (hwf.2.2.2.2.2.2.1 p hp).1
        rw [hpq.1] at href
        exact href
      have hlast : convLast db2 cid = some t1 := by
        rw [← hdb2, commitWrites_pair]
        unfold convLast
        exact lastOf_set db.conversations cid t1 hconvany
      refine ⟨hts.symm, by rw [← hev], ⟨sid, hsid, ?_⟩, hlast, fun h12 => ?_⟩
      · rw [← hdb2, commitWrites_pair]
      · rw [hlast, hts.symm, h12]

/-- Witness for the amended C9 at a concrete successful send. -/
theorem send_message_two_clock_reads_witness :
    Wf exDbA ∧
    send_message exDbA "Alice" 1 (some 1) (some "hi") (fun s => s) 5 5
      (fun _ => false) =
      (SendResult.ok 5, some ⟨1, "Alice", 1, "hi", 5⟩,
        (send_message exDbA "Alice" 1 (some 1) (some "hi") (fun s => s) 5 5
          (fun _ => false)).2.2) ∧
    (5 = 5 ∧ (⟨1, "Alice", 1, "hi", 5⟩ : NewMessageEvent).timestamp = 5 ∧
      (∃ sid, getUserIdFromUsername exDbA "Alice" = some sid ∧
        ((send_message exDbA "Alice" 1 (some 1) (some "hi") (fun s => s) 5 5
          (fun _ => false)).2.2).messages =
          exDbA.messages ++ [⟨exDbA.nextMsgId, 1, sid, "hi", 5⟩]) ∧
      convLast ((send_message exDbA "Alice" 1 (some 1) (some "hi") (fun s => s) 5 5
        (fun _ => false)).2.2) 1 = some 5 ∧
      (5 = 5 → convLast ((send_message exDbA "Alice" 1 (some 1) (some "hi")
        (fun s => s) 5 5 (fun _ => false)).2.2) 1 = some 5)) := by
  refine ⟨by decide, by decide, ?_⟩
  exact send_message_two_clock_reads exDbA "Alice" 1 1 "hi" (fun s => s) 5 5
    (fun _ => false) 5 ⟨1, "Alice", 1, "hi", 5⟩ _ (by decide) (by decide)

/-- C5 counterexample: the claim says `createConversation` fails with
`TooFewParticipants` when fewer than 2 distinct users remain after dedup.
The code checks `len(usernames) < 2` on the raw argument list before
resolving and deduplicating: calling it with the duplicate pair
`["a", "a"]` on a database holding the single user `a` passes the raw
check, dedups to one id and creates a conversation with one participant
instead of failing. -/
theorem createConversation_dedup_limits_refuted :
    ¬ (∀ db now names ids, Wf db → lookupUserIds db names = some ids →
        ids.dedup.length < 2 → (createConversation db now names).1 = none) := by
  intro h
  have hc := h exDbB 100 ["a", "a"] [1, 1] (by decide) (by decide) (by decide)
  exact absurd hc (by decide)

/-- C5 amended: the participant-count limits of `createConversation` apply
to the raw username list before dedup: fewer than 2 arguments fail, more
than 16 arguments fail, and a call with exactly 16 distinct existing
usernames succeeds; every call that returns no id leaves the database
unchanged (no conversation or participant row is created). -/
theorem createConversation_reduce (db : ChatDatabase) (now : Nat)
    (names : List String) (ids : List Nat) (hl : ¬ names.length < 2)
    (hg : ¬ 16 < names.length) (hlk : lookupUserIds db names = some ids) :
    createConversation db now names =
      match directDedupHit db ids.dedup with
      | some cid => (some cid, db)
      | none =>
        (some db.nextConvId,
          { db with
            conversations := db.conversations ++
              [⟨db.nextConvId, none, decide (2 < ids.dedup.length), now, none⟩],
            participants := db.participants ++
              ids.dedup.map (fun uid => ⟨db.nextConvId, uid, now⟩),
            nextConvId := db.nextConvId + 1 }) := by
  unfold createConversation
  rw [if_neg hl, if_neg hg, hlk]

theorem createConversation_raw_limits (db : ChatDatabase) (now : Nat)
    (names : List String) :
    (names.length < 2 → createConversation db now names = (none, db)) ∧
    (16 < names.length → createConversation db now names = (none, db)) ∧
    (∀ res, createConversation db now names = (none, res) → res = db) ∧
    (names.length = 16 → names.Nodup → Wf db →
      (∀ n ∈ names, ∃ r ∈ db.users, r.username = n) →
      ((createConversation db now names).1).isSome = true) := by
  refine ⟨?_, ?_, ?_, ?_⟩
  · intro hl; unfold createConversation; rw [if_pos hl]
  · intro hg
    unfold createConversation
    rw [if_neg (by omega), if_pos hg]
  · intro res h
    by_cases hl : names.length < 2
    · unfold createConversation at h
      rw [if_pos hl] at h
      exact (Prod.ext_iff.mp h).2.symm
    by_cases hg : 16 < names.length
    · unfold createConversation at h
      rw [if_neg hl, if_pos hg] at h
      exact (Prod.ext_iff.mp h).2.symm
    cases hlk : lookupUserIds db names with
    | none =>
      unfold createConversation at h
      rw [if_neg hl, if_neg hg, hlk] at h
      exact (Prod.ext_iff.mp h).2.symm
    | some ids =>
      rw [createConversation_reduce db now names ids hl hg hlk] at h
      cases hdh : directDedupHit db ids.dedup with
      | some cid =>
        rw [hdh] at h
        simp at h
      | none =>
        rw [hdh] at h
        simp at h
  · intro h16 hnd hwf hex
    obtain ⟨ids, hl, hlen, hsrc, hndids⟩ := lookupUserIds_exists hwf names hex
    rw [createConversation_reduce db now names ids (by omega) (by omega) hl]
    have hdd : ids.dedup = ids := List.dedup_eq_self.mpr (hndids hnd)
    rw [hdd]
    have hlen16 : ids.length = 16 := by omega
    have hhit : directDedupHit db ids = none := by
      rcases ids with _ | ⟨a, ids1⟩
      · simp at hlen16
      rcases ids1 with _ | ⟨b, ids2⟩
      · simp at hlen16
      rcases ids2 with _ | ⟨c, ids3⟩
      · simp at hlen16
      · rfl
    rw [hhit]
    rfl

theorem addUser_conversations (db : ChatDatabase) (now cid : Nat) (u : String) :
    (addUserToConversation db now cid u).2.conversations = db.conversations ∨
    (addUserToConversation db now cid u).2.conversations =
      db.conversations.map
        (fun c => if c.id = cid then { c with is_group_chat := true } else c) := by
  unfold addUserToConversation
  cases hu : getUserIdFromUsername db u with
  | none => left; rfl
  | some uid =>
    by_cases h0 : uid = 0
    · left; simp [h0]
    cases hf : db.conversations.find? (fun c => c.id = cid) with
    | none => left; simp [h0, hf]
    | some conv =>
      by_cases hmem : db.participants.any
          (fun p => p.conversation_id = cid && p.user_id = uid) = true
      · left; simp [h0, hf, hmem]
      by_cases hcap : 16 ≤ countParticipants db cid
      · left; simp [h0, hf, hmem, hcap]
      by_cases hflip : (!conv.is_group_chat && countParticipants db cid = 2) = true
      · right; simp [h0, hf, hmem, hcap, hflip]
      · left; simp [h0, hf, hmem, hcap, hflip]

theorem create_conversations (db : ChatDatabase) (now : Nat) (names : List String) :
    (createConversation db now names).2.conversations = db.conversations ∨
    ∃ l, (createConversation db now names).2.conversations = db.conversations ++ l := by
  unfold createConversation
  by_cases hl : names.length < 2
  · left; simp [hl]
  by_cases hg : 16 < names.length
  · left; simp [hl, hg]
  cases hlk : lookupUserIds db names with
  | none => left; simp [hl, hg, hlk]
  | some ids =>
    cases hdh : directDedupHit db ids.dedup with
    | some cid => left; simp [hl, hg, hlk, hdh]
    | none =>
      right
      refine ⟨[⟨db.nextConvId, none, decide (2 < ids.dedup.length), now, none⟩], ?_⟩
      simp [hl, hg, hlk, hdh]

/-- C4: adding a participant to a direct conversation with two members
succeeds, sets `is_group_chat` and the third membership row in the same
post-state (the same transaction), and no operation of the embedding
(`addUserToConversation`, `createConversation`, `appendMessage`,
`updateChatName`) ever turns `is_group_chat` of an existing conversation
back to false. -/
theorem is_group_flip_and_monotone :
    (∀ db now cid u uid conv, Wf db →
      getUserIdFromUsername db u = some uid →
      db.conversations.find? (fun c => c.id = cid) = some conv →
      conv.is_group_chat = false →
      countParticipants db cid = 2 →
      db.participants.any (fun p => p.conversation_id = cid && p.user_id = uid) = false →
      (addUserToConversation db now cid u).1 = true ∧
      isGroupChat (addUserToConversation db now cid u).2 cid = true ∧
      countParticipants (addUserToConversation db now cid u).2 cid = 3) ∧
    (∀ db now cid u c, isGroupChat db c = true →
      isGroupChat (addUserToConversation db now cid u).2 c = true) ∧
    (∀ db now names c, isGroupChat db c = true →
      isGroupChat (createConversation db now names).2 c = true) ∧
    (∀ db now cid sender msg fail c, isGroupChat db c = true →
      isGroupChat (appendMessage db now cid sender msg fail).2 c = true) ∧
    (∀ db cid nm c, isGroupChat db c = true →
      isGroupChat (updateChatName db cid nm).2 c = true) := by
  refine ⟨?_, ?_, ?_, ?_, ?_⟩
  · intro db now cid u uid conv hwf hu hfind hgrp hcnt hnot
    have huid : uid ≠ 0 := userId_pos hwf hu
    have hred : addUserToConversation db now cid u =
        (true,
          { db with
            conversations := db.conversations.map
              (fun c => if c.id = cid then { c with is_group_chat := true } else c),
            participants := db.participants ++ [⟨cid, uid, now⟩] }) := by
      simp [addUserToConversation, hu, huid, hfind, hnot, hcnt, hgrp]
    rw [hred]
    refine ⟨rfl, ?_, ?_⟩
    · have hconvany : db.conversations.any (fun c2 => c2.id = cid) = true := by
        refine List.any_eq_true.mpr ⟨conv, List.mem_of_find?_eq_some hfind, ?_⟩
        simpa using List.find?_some hfind
      unfold isGroupChat
      exact isGroupOf_set db.conversations cid hconvany
    · unfold countParticipants at hcnt ⊢
      rw [List.filter_append]
      simp [hcnt]
  · intro db now cid u c hg
    unfold isGroupChat at hg ⊢
    rcases addUser_conversations db now cid u with h | h
    · rw [h]; exact hg
    · rw [h]
      refine isGroupOf_map_mono db.conversations c _ ?_ ?_ hg
      · intro c2
        by_cases hc2 : c2.id = cid <;> simp [hc2]
      · intro c2 hc2
        by_cases h3 : c2.id = cid <;> simp [h3, hc2]
  · intro db now names c hg
    unfold isGroupChat at hg ⊢
    rcases create_conversations db now names with h | ⟨l, h⟩
    · rw [h]; exact hg
    · rw [h]
      exact isGroupOf_append db.conversations l c hg
  · intro db now cid sender msg fail c hg
    unfold isGroupChat at hg ⊢
    rcases appendMessage_cases db now cid sender msg fail with hfe | ⟨sid, hsid, hany, heq⟩
    · rw [hfe]; exact hg
    · rw [heq, commitWrites_pair]
      refine isGroupOf_map_mono db.conversations c _ ?_ ?_ hg
      · intro c2
        by_cases hc2 : c2.id = cid <;> simp [hc2]
      · intro c2 hc2
        by_cases h3 : c2.id = cid <;> simp [h3, hc2]
  · intro db cid nm c hg
    unfold isGroupChat at hg ⊢
    unfold updateChatName
    cases hf : db.conversations.find? (fun c => c.id = cid) with
    | none => exact hg
    | some conv =>
      by_cases hgc : (!conv.is_group_chat) = true
      · simp only [hgc, if_true]
        exact hg
      · simp only [hgc, Bool.false_eq_true, if_false]
        refine isGroupOf_map_mono db.conversations c _ ?_ ?_ hg
        · intro c2
          by_cases hc2 : c2.id = cid <;> simp [hc2]
        · intro c2 hc2
          by_cases h3 : c2.id = cid <;> simp [h3, hc2]

/-- Witness for C4: Carol joins the two-member direct conversation 1 of
`exDbA`; the call succeeds, the conversation becomes a group chat and has
three members. -/
theorem is_group_flip_and_monotone_witness :
    Wf exDbA ∧
    getUserIdFromUsername exDbA "Carol" = some 3 ∧
    exDbA.conversations.find? (fun c => c.id = 1) = some ⟨1, none, false, 20, none⟩ ∧
    countParticipants exDbA 1 = 2 ∧
    ((addUserToConversation exDbA 50 1 "Carol").1 = true ∧
      isGroupChat (addUserToConversation exDbA 50 1 "Carol").2 1 = true ∧
      countParticipants (addUserToConversation exDbA 50 1 "Carol").2 1 = 3) :=
  ⟨by decide, by decide, by decide, by decide,
   is_group_flip_and_monotone.1 exDbA 50 1 "Carol" 3 ⟨1, none, false, 20, none⟩
     (by decide) (by decide) (by decide) (by decide) (by decide) (by decide)⟩

/-- C3: `appendMessage` is atomic over its two writes.  Failure at any
statement (validation, the message INSERT, the `last_message_at` UPDATE,
or COMMIT) is reported as `False` and leaves the durable database exactly
as before, because the writes only live in the open transaction until
`commit()`; on success both the message row (with the server-side
timestamp) and `last_message_at = timestamp` land together.  No post-state
has exactly one of the two writes. -/
theorem appendMessage_atomic (db : ChatDatabase) (now cid : Nat)
    (sender msg : String) (fail : Nat → Bool) (hwf : Wf db) :
    ((appendMessage db now cid sender msg fail).1 = false ∧
      (appendMessage db now cid sender msg fail).2 = db) ∨
    ((appendMessage db now cid sender msg fail).1 = true ∧
      (∃ sid, getUserIdFromUsername db sender = some sid ∧
        (appendMessage db now cid sender msg fail).2.messages =
          db.messages ++ [⟨db.nextMsgId, cid, sid, msg, now⟩]) ∧
      convLast (appendMessage db now cid sender msg fail).2 cid = some now) := by
  rcases appendMessage_cases db now cid sender msg fail with hfe | ⟨sid, hsid, hany, heq⟩
  · left
    rw [hfe]
    exact ⟨rfl, rfl⟩
  · right
    rw [heq, commitWrites_pair]
    refine ⟨rfl, ⟨sid, hsid, rfl⟩, ?_⟩
    have hconvany : db.conversations.any (fun c2 => c2.id = cid) = true := by
      obtain ⟨p, hp, hpq⟩ := List.any_eq_true.mp hany
      simp only [Bool.and_eq_true, decide_eq_true_eq] at hpq
      have href := (hwf.2.2.2.2.2.2.1 p hp).1
      rw [hpq.1] at href
      exact href
    unfold convLast
    exact lastOf_set db.conversations cid now hconvany

/-- Witness for C3: a successful append on `exDbA` and a failing append
(COMMIT failure) on the same database. -/
theorem appendMessage_atomic_witness :
    Wf exDbA ∧
    (((appendMessage exDbA 55 1 "Alice" "ct" (fun _ => false)).1 = false ∧
        (appendMessage exDbA 55 1 "Alice" "ct" (fun _ => false)).2 = exDbA) ∨
      ((appendMessage exDbA 55 1 "Alice" "ct" (fun _ => false)).1 = true ∧
        (∃ sid, getUserIdFromUsername exDbA "Alice" = some sid ∧
          (appendMessage exDbA 55 1 "Alice" "ct" (fun _ => false)).2.messages =
            exDbA.messages ++ [⟨exDbA.nextMsgId, 1, sid, "ct", 55⟩]) ∧
        convLast (appendMessage exDbA 55 1 "Alice" "ct" (fun _ => false)).2 1 =
          some 55)) :=
  ⟨by decide, appendMessage_atomic exDbA 55 1 "Alice" "ct" (fun _ => false) (by decide)⟩

/-- C2: the access check of the authorized operations (get chat, send
message, add user to chat, rename chat — all four guard with
`chat_id not in getUserChats(session['username'])`) denies exactly the
non-participants: `authorize` fails iff the user has no participant row
for the conversation, and the `send_message` route (past its input
validation) answers access-denied iff the user is not a participant. -/
theorem access_denied_iff_nonmember (db : ChatDatabase) (u : String) (c : Nat)
    (hwf : Wf db) :
    (authorize db u c = false ↔ isParticipantB db u c = false) ∧
    (∀ uid msg enc t1 t2 fail, isBlank msg = false → c ≠ 0 →
      ((send_message db u uid (some c) (some msg) enc t1 t2 fail).1 =
          SendResult.accessDenied ↔ isParticipantB db u c = false)) := by
  have hmem : authorize db u c = true ↔ isParticipantB db u c = true := by
    unfold authorize
    rw [List.any_eq_true]
    constructor
    · rintro ⟨x, hx, hxc⟩
      simp only [decide_eq_true_eq] at hxc
      subst hxc
      exact (mem_getUserChats u x hwf).mp hx
    · intro hp
      exact ⟨c, (mem_getUserChats u c hwf).mpr hp, by simp⟩
  have hiff : authorize db u c = false ↔ isParticipantB db u c = false := by
    constructor
    · intro hf
      cases hP : isParticipantB db u c
      · rfl
      · rw [hmem.mpr hP] at hf; cases hf
    · intro hf
      cases hA : authorize db u c
      · rfl
      · rw [hmem.mp hA] at hf; cases hf
  refine ⟨hiff, ?_⟩
  intro uid msg enc t1 t2 fail hm hc
  simp only [send_message]
  rw [if_neg (by simp [hm]), if_neg hc]
  cases hA : authorize db u c with
  | false =>
    simp only [hA, Bool.not_false, if_true]
    simp only [true_iff]
    exact hiff.mp hA
  | true =>
    simp only [hA, Bool.not_true, Bool.false_eq_true, if_false]
    have hP : isParticipantB db u c = true := hmem.mp hA
    cases hr : (appendMessage db t1 c u (enc msg) fail).1 with
    | false =>
      simp only [hr, Bool.not_false, if_true]
      simp [hP]
    | true =>
      simp only [hr, Bool.not_true, Bool.false_eq_true, if_false]
      simp [hP]

/-- Witness for C2: Carol is not in conversation 1 of `exDbA` and is
denied; the iff evaluates on the concrete database. -/
theorem access_denied_iff_nonmember_witness :
    Wf exDbA ∧
    ((authorize exDbA "Carol" 1 = false ↔ isParticipantB exDbA "Carol" 1 = false) ∧
      (∀ uid msg enc t1 t2 fail, isBlank msg = false → (1 : Nat) ≠ 0 →
        ((send_message exDbA "Carol" uid (some 1) (some msg) enc t1 t2 fail).1 =
            SendResult.accessDenied ↔ isParticipantB exDbA "Carol" 1 = false))) :=
  ⟨by decide, access_denied_iff_nonmember exDbA "Carol" 1 (by decide)⟩

/-- C7: `getUserChats` returns exactly the ids of the conversations the
user participates in, in an order satisfying
`last_message_at DESC NULLS LAST`; an unknown username and a user with no
memberships give the empty list rather than an error. -/
theorem getUserChats_spec (db : ChatDatabase) (u : String) (hwf : Wf db) :
    (∀ c, c ∈ getUserChats db u ↔ isParticipantB db u c = true) ∧
    List.Pairwise (fun a b => descNullsLast (convLast db a) (convLast db b) = true)
      (getUserChats db u) ∧
    (getUserIdFromUsername db u = none → getUserChats db u = []) ∧
    ((∀ c, isParticipantB db u c = false) → getUserChats db u = []) := by
  refine ⟨fun c => mem_getUserChats u c hwf, ?_, ?_, ?_⟩
  · unfold getUserChats
    cases hu : getUserIdFromUsername db u with
    | none => exact List.Pairwise.nil
    | some uid =>
      have huid : uid ≠ 0 := userId_pos hwf hu
      simp only [huid, if_false]
      rw [List.pairwise_map]
      have hs := List.sorted_insertionSort convOrder
        (db.conversations.filter
          (fun c => db.participants.any
            (fun p => p.conversation_id = c.id && p.user_id = uid)))
      refine List.Pairwise.imp_of_mem ?_ hs
      intro a b ha hb hab
      have ha2 : a ∈ db.conversations :=
        (List.mem_filter.mp ((List.mem_insertionSort convOrder).mp ha)).1
      have hb2 : b ∈ db.conversations :=
        (List.mem_filter.mp ((List.mem_insertionSort convOrder).mp hb)).1
      unfold convLast
      rw [lastOf_of_mem hwf.2.2.2.1 ha2, lastOf_of_mem hwf.2.2.2.1 hb2]
      exact hab
  · intro hu
    unfold getUserChats
    rw [hu]
  · intro hall
    refine List.eq_nil_iff_forall_not_mem.mpr ?_
    intro c hc
    have hp := (mem_getUserChats u c hwf).mp hc
    rw [hall c] at hp
    cases hp

/-- Witness for C7 on the spec's listing example: Alice's conversations
with `last_message_at` 100, NULL and 300 come back as `[3, 1, 2]`. -/
theorem getUserChats_spec_witness :
    Wf exDbD ∧ getUserChats exDbD "Alice" = [3, 1, 2] ∧
    ((∀ c, c ∈ getUserChats exDbD "Alice" ↔ isParticipantB exDbD "Alice" c = true) ∧
      List.Pairwise
        (fun a b => descNullsLast (convLast exDbD a) (convLast exDbD b) = true)
        (getUserChats exDbD "Alice") ∧
      (getUserIdFromUsername exDbD "Alice" = none → getUserChats exDbD "Alice" = []) ∧
      ((∀ c, isParticipantB exDbD "Alice" c = false) → getUserChats exDbD "Alice" = [])) :=
  ⟨by decide, by decide, getUserChats_spec exDbD "Alice" (by decide)⟩

/-- Witness for the amended C5: sixteen distinct registered usernames
succeed. -/
theorem createConversation_raw_limits_witness :
    names16.length = 16 ∧ names16.Nodup ∧ Wf exDb16 ∧
    (∀ n ∈ names16, ∃ r ∈ exDb16.users, r.username = n) ∧
    ((createConversation exDb16 0 names16).1).isSome = true :=
  ⟨by decide, by decide, by decide, by decide,
   (createConversation_raw_limits exDb16 0 names16).2.2.2 (by decide) (by decide)
     (by decide) (by decide)⟩

theorem createConversation_pair_eq (db : ChatDatabase) (now : Nat) {a b : String}
    {ua ub : Nat} (ha : getUserIdFromUsername db a = some ua)
    (hb : getUserIdFromUsername db b = some ub)
    (ha0 : ua ≠ 0) (hb0 : ub ≠ 0) (hab : ua ≠ ub) :
    createConversation db now [a, b] =
      match existingDirectConv db ua ub with
      | some cid => (some cid, db)
      | none =>
        (some db.nextConvId,
          { db with
            conversations := db.conversations ++
              [⟨db.nextConvId, none, false, now, none⟩],
            participants := db.participants ++
              [⟨db.nextConvId, ua, now⟩, ⟨db.nextConvId, ub, now⟩],
            nextConvId := db.nextConvId + 1 }) := by
  have hids : lookupUserIds db [a, b] = some [ua, ub] :=
    lookupUserIds_pair ha hb ha0 hb0
  rw [createConversation_reduce db now [a, b] [ua, ub] (by simp) (by simp) hids]
  rw [dedup_pair hab]
  rw [show directDedupHit db [ua, ub] = existingDirectConv db ua ub from rfl]
  cases hE : existingDirectConv db ua ub with
  | some cid => rfl
  | none => rfl

theorem matchesDirectPair_old (db : ChatDatabase) (now1 ua ub : Nat)
    (hwf : Wf db) (c : ConversationRow) (hc : c ∈ db.conversations) :
    matchesDirectPair
      { db with
        conversations := db.conversations ++
          [⟨db.nextConvId, none, false, now1, none⟩],
        participants := db.participants ++
          [⟨db.nextConvId, ua, now1⟩, ⟨db.nextConvId, ub, now1⟩],
        nextConvId := db.nextConvId + 1 }
      c ua ub = matchesDirectPair db c ua ub := by
  apply matchesDirectPair_congr
  have hcid : c.id < db.nextConvId := (hwf.2.2.2.2.1 c hc).2
  have hnew : ([(⟨db.nextConvId, ua, now1⟩ : ParticipantRow),
      ⟨db.nextConvId, ub, now1⟩] : List ParticipantRow).filter
      (fun p => p.conversation_id = c.id) = [] := by
    simp only [List.filter_cons, List.filter_nil, decide_eq_true_eq]
    rw [if_neg (by omega), if_neg (by omega)]
  calc (db.participants ++
      [(⟨db.nextConvId, ua, now1⟩ : ParticipantRow),
        ⟨db.nextConvId, ub, now1⟩]).filter (fun p => p.conversation_id = c.id)
      = db.participants.filter (fun p => p.conversation_id = c.id) ++
        ([(⟨db.nextConvId, ua, now1⟩ : ParticipantRow),
          ⟨db.nextConvId, ub, now1⟩] : List ParticipantRow).filter
          (fun p => p.conversation_id = c.id) := List.filter_append _ _
    _ = db.participants.filter (fun p => p.conversation_id = c.id) := by
        rw [hnew, List.append_nil]

theorem matchesDirectPair_new (db : ChatDatabase) (now1 ua ub : Nat)
    (hwf : Wf db) (hab : ua ≠ ub) :
    matchesDirectPair
      { db with
        conversations := db.conversations ++
          [⟨db.nextConvId, none, false, now1, none⟩],
        participants := db.participants ++
          [⟨db.nextConvId, ua, now1⟩, ⟨db.nextConvId, ub, now1⟩],
        nextConvId := db.nextConvId + 1 }
      ⟨db.nextConvId, none, false, now1, none⟩ ua ub = true := by
  have hfresh := participants_filter_fresh hwf
  have hinner : db.participants.filter
      (fun p => p.conversation_id = db.nextConvId &&
        (p.user_id = ua || p.user_id = ub)) = [] := by
    refine List.filter_eq_nil_iff.mpr ?_
    intro p hp
    have hnp := List.filter_eq_nil_iff.mp hfresh p hp
    simp only [decide_eq_true_eq] at hnp
    simp only [Bool.and_eq_true, decide_eq_true_eq]
    intro hand
    exact hnp hand.1
  unfold matchesDirectPair
  simp only [List.filter_append, hfresh, hinner, List.nil_append]
  simp [dedup_pair hab]

/-- C1: when a direct (non-group) conversation whose participant set is
exactly the two given distinct existing users already exists (and is the
only one, as the dedup invariant maintains), `createConversation` returns
its id and leaves the database unchanged; consequently calling
`createConversation` twice with the same pair returns the same id with no
second conversation created, whether or not a conversation existed
beforehand. -/
theorem createConversation_direct_dedup (db : ChatDatabase) (now1 now2 : Nat)
    (a b : String) (ua ub : Nat) (hwf : Wf db)
    (ha : getUserIdFromUsername db a = some ua)
    (hb : getUserIdFromUsername db b = some ub) (hne : a ≠ b)
    (huniq : ∀ c1 ∈ db.conversations, ∀ c2 ∈ db.conversations,
      matchesDirectPair db c1 ua ub = true → matchesDirectPair db c2 ua ub = true →
      c1 = c2) :
    (∀ c ∈ db.conversations, matchesDirectPair db c ua ub = true →
      createConversation db now1 [a, b] = (some c.id, db)) ∧
    (∀ i db1, createConversation db now1 [a, b] = (some i, db1) →
      createConversation db1 now2 [a, b] = (some i, db1)) := by
  have ha0 : ua ≠ 0 := userId_pos hwf ha
  have hb0 : ub ≠ 0 := userId_pos hwf hb
  have hab : ua ≠ ub := by
    intro he
    exact hne (userId_inj hwf ha (he ▸ hb))
  constructor
  · intro c hc hm
    rw [createConversation_pair_eq db now1 ha hb ha0 hb0 hab]
    have hE : existingDirectConv db ua ub = some c.id := by
      unfold existingDirectConv
      have hs : (db.conversations.find?
          (fun x => matchesDirectPair db x ua ub)).isSome = true :=
        List.find?_isSome.mpr ⟨c, hc, hm⟩
      obtain ⟨c0, hc0⟩ := Option.isSome_iff_exists.mp hs
      have hc0m := List.find?_some hc0
      have hc0mem : c0 ∈ db.conversations := List.mem_of_find?_eq_some hc0
      rw [hc0, huniq c0 hc0mem c hc hc0m hm]
      rfl
    rw [hE]
  · intro i db1 hcall
    rw [createConversation_pair_eq db now1 ha hb ha0 hb0 hab] at hcall
    cases hE : existingDirectConv db ua ub with
    | some cid =>
      rw [hE] at hcall
      have h1 : (some cid : Option Nat) = some i := (Prod.ext_iff.mp hcall).1
      have h2 : db = db1 := (Prod.ext_iff.mp hcall).2
      injection h1 with h1x
      subst h1x
      subst h2
      rw [createConversation_pair_eq db now2 ha hb ha0 hb0 hab, hE]
    | none =>
      rw [hE] at hcall
      have h1 : (some db.nextConvId : Option Nat) = some i :=
        (Prod.ext_iff.mp hcall).1
      have h2 : ({ db with
          conversations := db.conversations ++
            [⟨db.nextConvId, none, false, now1, none⟩],
          participants := db.participants ++
            [⟨db.nextConvId, ua, now1⟩, ⟨db.nextConvId, ub, now1⟩],
          nextConvId := db.nextConvId + 1 } : ChatDatabase) = db1 :=
        (Prod.ext_iff.mp hcall).2
      injection h1 with h1x
      subst h1x
      subst h2
      have ha1 : getUserIdFromUsername
          { db with
            conversations := db.conversations ++
              [⟨db.nextConvId, none, false, now1, none⟩],
            participants := db.participants ++
              [⟨db.nextConvId, ua, now1⟩, ⟨db.nextConvId, ub, now1⟩],
            nextConvId := db.nextConvId + 1 } a = some ua := ha
      have hb1 : getUserIdFromUsername
          { db with
            conversations := db.conversations ++
              [⟨db.nextConvId, none, false, now1, none⟩],
            participants := db.participants ++
              [⟨db.nextConvId, ua, now1⟩, ⟨db.nextConvId, ub, now1⟩],
            nextConvId := db.nextConvId + 1 } b = some ub := hb
      rw [createConversation_pair_eq _ now2 ha1 hb1 ha0 hb0 hab]
      have hnone := List.find?_eq_none.mp
        (Option.map_eq_none.mp (by unfold existingDirectConv at hE; exact hE))
      have hE1 : existingDirectConv
          { db with
            conversations := db.conversations ++
              [⟨db.nextConvId, none, false, now1, none⟩],
            participants := db.participants ++
              [⟨db.nextConvId, ua, now1⟩, ⟨db.nextConvId, ub, now1⟩],
            nextConvId := db.nextConvId + 1 } ua ub = some db.nextConvId := by
        unfold existingDirectConv
        rw [show ({ db with
            conversations := db.conversations ++
              [⟨db.nextConvId, none, false, now1, none⟩],
            participants := db.participants ++
              [⟨db.nextConvId, ua, now1⟩, ⟨db.nextConvId, ub, now1⟩],
            nextConvId := db.nextConvId + 1 } : ChatDatabase).conversations =
          db.conversations ++ [⟨db.nextConvId, none, false, now1, none⟩] from rfl]
        rw [List.find?_append]
        have hold : db.conversations.find?
            (fun c => matchesDirectPair
              { db with
                conversations := db.conversations ++
                  [⟨db.nextConvId, none, false, now1, none⟩],
                participants := db.participants ++
                  [⟨db.nextConvId, ua, now1⟩, ⟨db.nextConvId, ub, now1⟩],
                nextConvId := db.nextConvId + 1 } c ua ub) = none := by
          refine List.find?_eq_none.mpr ?_
          intro c hc
          rw [matchesDirectPair_old db now1 ua ub hwf c hc]
          exact hnone c hc
        rw [hold]
        have hnew := matchesDirectPair_new db now1 ua ub hwf hab
        simp only [Option.none_or, List.find?_cons, hnew]
        rfl
      rw [hE1]

/-- Witness for C1: creating the Alice-Boby conversation on `exDbA`, where
direct conversation 1 with exactly those two members already exists,
returns id 1 and leaves the database unchanged. -/
theorem createConversation_direct_dedup_witness :
    Wf exDbA ∧ ("Alice" : String) ≠ "Boby" ∧
    createConversation exDbA 100 ["Alice", "Boby"] = (some 1, exDbA) :=
  ⟨by decide, by decide,
   (createConversation_direct_dedup exDbA 100 101 "Alice" "Boby" 1 2 (by decide)
      (by decide) (by decide) (by decide) (by decide)).1
     ⟨1, none, false, 20, none⟩ (by decide) (by decide)⟩

end FlaskChat
